import Mathlib

/-!
Verification of the helium-config-service-cli core against its design
specification.

The development shallowly embeds the data model, the canonical signing
protocol, the batch RPC request builders, the fixed-width hex codec, the
region enumerations and the subnet decomposition engine, and proves (or
refutes) the specified properties about them.

Machine integers of the source (u32 devaddrs, u64 EUIs and timestamps)
are modelled as Nat; byte vectors as List Nat; fallible Rust functions
returning anyhow::Result are modelled as Except String.  External
collaborators (the prost encoder and the helium-crypto keypair) are
modelled as explicit function parameters, since the source treats both
as opaque deterministic collaborators.
-/

/- ===================== Data model (src/lib.rs) ===================== -/

/-- DevaddrRange from src/lib.rs: a route-scoped inclusive devaddr range.
HexDevAddr values are modelled as Nat. -/
structure DevaddrRange where
  route_id : String
  start_addr : Nat
  end_addr : Nat
deriving DecidableEq

/-- DevaddrRange::new from src/lib.rs: fails iff end_addr < start_addr,
otherwise returns the value with fields equal to the arguments. -/
def DevaddrRange.new (route_id : String) (start_addr end_addr : Nat) :
    Except String DevaddrRange :=
  if end_addr < start_addr then
    Except.error "start_addr cannot be greater than end_addr"
  else
    Except.ok { route_id := route_id, start_addr := start_addr, end_addr := end_addr }

/-- Modelled from the spec: DevaddrConstraint (spec section 3) is the
unscoped form of a range; its definition lives in src/subnet.rs which is
not present under src/, only its callers are (src/cmds/mod.rs line 645). -/
structure DevaddrConstraint where
  start_addr : Nat
  end_addr : Nat
deriving DecidableEq

/-- Modelled from the spec: constructing a DevaddrConstraint fails with
InvalidRangeError when end < start (spec section 4.2); src/subnet.rs is
not present under src/. -/
def DevaddrConstraint.new (start_addr end_addr : Nat) :
    Except String DevaddrConstraint :=
  if end_addr < start_addr then
    Except.error "start_addr cannot be greater than end_addr"
  else
    Except.ok { start_addr := start_addr, end_addr := end_addr }

/-- Eui from src/lib.rs: a route-scoped pair of 64-bit EUIs, modelled as Nat. -/
structure Eui where
  route_id : String
  app_eui : Nat
  dev_eui : Nat
deriving DecidableEq

/-- Eui::new from src/lib.rs: total, performs no validation, always Ok. -/
def Eui.new (route_id : String) (app_eui dev_eui : Nat) : Except String Eui :=
  Except.ok { route_id := route_id, app_eui := app_eui, dev_eui := dev_eui }

/-- SessionKeyFilter from src/lib.rs. -/
structure SessionKeyFilter where
  oui : Nat
  devaddr : Nat
  session_key : String
deriving DecidableEq

/- ===================== Region enums (src/region.rs) ===================== -/

/-- Region enum from src/region.rs (the local CLI-facing enumeration). -/
inductive Region where
  | us915
  | eu868
  | eu433
  | cn470
  | cn779
  | au915
  | as923_1
  | as923_1b
  | as923_2
  | as923_3
  | as923_4
  | kr920
  | in865
  | cd900_1a
deriving DecidableEq

/-- ProtoRegion: the helium_proto wire enumeration, restricted to the
variants the source maps (src/region.rs lines 82-122). -/
inductive ProtoRegion where
  | us915
  | eu868
  | eu433
  | cn470
  | cn779
  | au915
  | as9231
  | as9231b
  | as9232
  | as9233
  | as9234
  | kr920
  | in865
  | cd9001a
deriving DecidableEq

/-- From(&Region) for ProtoRegion, src/region.rs lines 82-101. -/
def Region.toProtoRegion : Region → ProtoRegion
  | .us915 => .us915
  | .eu868 => .eu868
  | .eu433 => .eu433
  | .cn470 => .cn470
  | .cn779 => .cn779
  | .au915 => .au915
  | .as923_1 => .as9231
  | .as923_1b => .as9231b
  | .as923_2 => .as9232
  | .as923_3 => .as9233
  | .as923_4 => .as9234
  | .kr920 => .kr920
  | .in865 => .in865
  | .cd900_1a => .cd9001a

/-- From(ProtoRegion) for Region, src/region.rs lines 103-122. -/
def ProtoRegion.toRegion : ProtoRegion → Region
  | .us915 => .us915
  | .eu868 => .eu868
  | .eu433 => .eu433
  | .cn470 => .cn470
  | .cn779 => .cn779
  | .au915 => .au915
  | .as9231 => .as923_1
  | .as9231b => .as923_1b
  | .as9232 => .as923_2
  | .as9233 => .as923_3
  | .as9234 => .as923_4
  | .kr920 => .kr920
  | .in865 => .in865
  | .cd9001a => .cd900_1a

/- ============== Canonical signing protocol (src/client.rs) ============== -/

/-- SignableMsg: a structured request carrying a mutable signature field
alongside a timestamp and a semantic payload (spec section 3; the concrete
request structs of src/client.rs all share this shape). -/
structure SignableMsg (α : Type) where
  payload : α
  timestamp : Nat
  signature : List Nat
deriving DecidableEq

/-- MsgSign::sign as stamped by the impl_sign macro, src/client.rs lines
457-467: clone the message, clear its signature field, serialize the clone
with the deterministic prost encoding, and sign the bytes with the keypair.
The encoder and the asymmetric signing primitive are external collaborators
and are passed as functions. -/
def msgSign {α : Type} (keypair : List Nat → Except String (List Nat))
    (encode : SignableMsg α → List Nat) (m : SignableMsg α) :
    Except String (List Nat) :=
  keypair (encode { m with signature := [] })

/- ============== Batch request builders (src/client.rs) ============== -/

/-- ActionV1 from helium_proto, used by the update request structs. -/
inductive ActionV1 where
  | add
  | remove
deriving DecidableEq

/-- ActionV1 to i32 conversion (ActionV1::Add.into() in the source). -/
def ActionV1.toI32 : ActionV1 → Int
  | .add => 0
  | .remove => 1

/-- RouteUpdateDevaddrRangesReqV1 from helium_proto as populated by
src/client.rs lines 136-141. -/
structure RouteUpdateDevaddrRangesReqV1 where
  action : Int
  timestamp : Nat
  signature : List Nat
  devaddr_range : Option DevaddrRange
deriving DecidableEq

/-- impl_sign for RouteUpdateDevaddrRangesReqV1 (src/client.rs line 474). -/
def RouteUpdateDevaddrRangesReqV1.sign (m : RouteUpdateDevaddrRangesReqV1)
    (keypair : List Nat → Except String (List Nat))
    (encode : RouteUpdateDevaddrRangesReqV1 → List Nat) :
    Except String (List Nat) :=
  keypair (encode { m with signature := [] })

/-- RouteUpdateEuisReqV1 from helium_proto as populated by src/client.rs
lines 216-221. -/
structure RouteUpdateEuisReqV1 where
  action : Int
  timestamp : Nat
  signature : List Nat
  eui_pair : Option Eui
deriving DecidableEq

/-- impl_sign for RouteUpdateEuisReqV1 (src/client.rs line 477). -/
def RouteUpdateEuisReqV1.sign (m : RouteUpdateEuisReqV1)
    (keypair : List Nat → Except String (List Nat))
    (encode : RouteUpdateEuisReqV1 → List Nat) :
    Except String (List Nat) :=
  keypair (encode { m with signature := [] })

/-- SessionKeyFilterUpdateReqV1 from helium_proto as populated by
src/client.rs lines 384-389. -/
structure SessionKeyFilterUpdateReqV1 where
  action : Int
  filter : Option SessionKeyFilter
  timestamp : Nat
  signature : List Nat
deriving DecidableEq

/-- impl_sign for SessionKeyFilterUpdateReqV1 (src/client.rs line 482). -/
def SessionKeyFilterUpdateReqV1.sign (m : SessionKeyFilterUpdateReqV1)
    (keypair : List Nat → Except String (List Nat))
    (encode : SessionKeyFilterUpdateReqV1 → List Nat) :
    Except String (List Nat) :=
  keypair (encode { m with signature := [] })

/-- Request literal built per element by add_devaddrs and remove_devaddrs
(src/client.rs lines 136-141 and 163-168): action, shared timestamp, empty
signature, the element as payload. -/
def mkUpdateDevaddrRangesReq (action : Int) (timestamp : Nat)
    (devaddr : DevaddrRange) : RouteUpdateDevaddrRangesReqV1 :=
  { action := action, timestamp := timestamp, signature := [],
    devaddr_range := some devaddr }

/-- Request literal built per element by add_euis and remove_euis
(src/client.rs lines 216-221 and 239-244). -/
def mkUpdateEuisReq (action : Int) (timestamp : Nat) (eui : Eui) :
    RouteUpdateEuisReqV1 :=
  { action := action, timestamp := timestamp, signature := [],
    eui_pair := some eui }

/-- Request literal built per element by add_filters and remove_filters
(src/client.rs lines 384-389 and 407-412). -/
def mkSkfUpdateReq (action : Int) (timestamp : Nat)
    (filter : SessionKeyFilter) : SessionKeyFilterUpdateReqV1 :=
  { action := action, filter := some filter, timestamp := timestamp,
    signature := [] }

/-- DevaddrClient::add_devaddrs, src/client.rs lines 127-152.  The wall
clock current_timestamp is modelled as a function from the call index to
the returned milliseconds; the source calls it exactly once, before the
loop, so the single call is clock 0.  Rust's flat_map over a
Result-returning closure keeps Ok elements and discards Err elements,
which is List.filterMap. -/
def add_devaddrs (keypair : List Nat → Except String (List Nat))
    (encode : RouteUpdateDevaddrRangesReqV1 → List Nat) (clock : Nat → Nat)
    (devaddrs : List DevaddrRange) : List RouteUpdateDevaddrRangesReqV1 :=
  let timestamp := clock 0
  devaddrs.filterMap (fun devaddr =>
    let request := mkUpdateDevaddrRangesReq ActionV1.add.toI32 timestamp devaddr
    match request.sign keypair encode with
    | Except.ok sig => some { request with signature := sig }
    | Except.error _ => none)

/-- DevaddrClient::remove_devaddrs, src/client.rs lines 154-179. -/
def remove_devaddrs (keypair : List Nat → Except String (List Nat))
    (encode : RouteUpdateDevaddrRangesReqV1 → List Nat) (clock : Nat → Nat)
    (devaddrs : List DevaddrRange) : List RouteUpdateDevaddrRangesReqV1 :=
  let timestamp := clock 0
  devaddrs.filterMap (fun devaddr =>
    let request := mkUpdateDevaddrRangesReq ActionV1.remove.toI32 timestamp devaddr
    match request.sign keypair encode with
    | Except.ok sig => some { request with signature := sig }
    | Except.error _ => none)

/-- EuiClient::add_euis, src/client.rs lines 211-228. -/
def add_euis (keypair : List Nat → Except String (List Nat))
    (encode : RouteUpdateEuisReqV1 → List Nat) (clock : Nat → Nat)
    (euis : List Eui) : List RouteUpdateEuisReqV1 :=
  let timestamp := clock 0
  euis.filterMap (fun eui =>
    let request := mkUpdateEuisReq ActionV1.add.toI32 timestamp eui
    match request.sign keypair encode with
    | Except.ok sig => some { request with signature := sig }
    | Except.error _ => none)

/-- EuiClient::remove_euis, src/client.rs lines 230-251. -/
def remove_euis (keypair : List Nat → Except String (List Nat))
    (encode : RouteUpdateEuisReqV1 → List Nat) (clock : Nat → Nat)
    (euis : List Eui) : List RouteUpdateEuisReqV1 :=
  let timestamp := clock 0
  euis.filterMap (fun eui =>
    let request := mkUpdateEuisReq ActionV1.remove.toI32 timestamp eui
    match request.sign keypair encode with
    | Except.ok sig => some { request with signature := sig }
    | Except.error _ => none)

/-- SkfClient::add_filters, src/client.rs lines 375-396. -/
def add_filters (keypair : List Nat → Except String (List Nat))
    (encode : SessionKeyFilterUpdateReqV1 → List Nat) (clock : Nat → Nat)
    (filters : List SessionKeyFilter) : List SessionKeyFilterUpdateReqV1 :=
  let timestamp := clock 0
  filters.filterMap (fun filter =>
    let request := mkSkfUpdateReq ActionV1.add.toI32 timestamp filter
    match request.sign keypair encode with
    | Except.ok sig => some { request with signature := sig }
    | Except.error _ => none)

/-- SkfClient::remove_filters, src/client.rs lines 398-419. -/
def remove_filters (keypair : List Nat → Except String (List Nat))
    (encode : SessionKeyFilterUpdateReqV1 → List Nat) (clock : Nat → Nat)
    (filters : List SessionKeyFilter) : List SessionKeyFilterUpdateReqV1 :=
  let timestamp := clock 0
  filters.filterMap (fun filter =>
    let request := mkSkfUpdateReq ActionV1.remove.toI32 timestamp filter
    match request.sign keypair encode with
    | Except.ok sig => some { request with signature := sig }
    | Except.error _ => none)

/- ============== FixedWidthHex codec (spec section 4.1) ============== -/

/-- Modelled from the spec: the sixteen hex digit characters, uppercase as
the codec always emits (spec sections 4.1 and 6); src/hex_field.rs is not
present under src/, only its callers are. -/
def hex_chars : List Char :=
  ['0', '1', '2', '3', '4', '5', '6', '7', '8', '9', 'A', 'B', 'C', 'D', 'E', 'F']

/-- Modelled from the spec: the character for a hex digit value below 16. -/
def to_hex_digit (d : Nat) : Char := hex_chars.getD d '0'

/-- Modelled from the spec: the numeric value of a hex digit character. -/
def hex_digit_val (c : Char) : Nat := hex_chars.indexOf c

/-- Modelled from the spec: whether a character is a hex digit the codec
accepts. -/
def is_hex_digit (c : Char) : Bool := decide (c ∈ hex_chars)

/-- Modelled from the spec: the digit string of a value, exactly n digits,
most significant first, zero-padded (spec section 4.1: format always emits
exactly N/4 uppercase hex digits). -/
def format_digits : Nat → Nat → List Char
  | 0, _ => []
  | n + 1, v => format_digits n (v / 16) ++ [to_hex_digit (v % 16)]

/-- Modelled from the spec: format of the fixed-width hex codec, n the
digit count N/4 (spec section 4.1). -/
def format_hex (n v : Nat) : String := String.mk (format_digits n v)

/-- Modelled from the spec: the value of a hex digit string, most
significant digit first. -/
def parse_val (l : List Char) : Nat :=
  l.foldl (fun acc c => 16 * acc + hex_digit_val c) 0

/-- Modelled from the spec: parse of the fixed-width hex codec; fails if
the digit count is not exactly n or any character is not a hex digit
(spec section 4.1). -/
def parse_hex (n : Nat) (t : String) : Option Nat :=
  if t.data.length = n ∧ t.data.all is_hex_digit then
    some (parse_val t.data)
  else
    none

/- ========= Subnet decomposition engine (spec section 4.3) ========= -/

/-- Modelled from the spec: SubnetBlock (spec section 3), a power-of-two
aligned block given by its base and prefix bit count; src/subnet.rs is
not present under src/. -/
structure SubnetBlock where
  base : Nat
  prefix_bits : Nat
deriving DecidableEq

/-- Modelled from the spec: trailing_zero_count (spec section 4.3 step 2a),
written with structural fuel (first argument) so that it computes by
kernel reduction; the fuel n always suffices for input n. -/
def trailing_zero_count_aux : Nat → Nat → Nat
  | 0, _ => 0
  | fuel + 1, n =>
    if n % 2 = 0 ∧ 0 < n then trailing_zero_count_aux fuel (n / 2) + 1 else 0

/-- Modelled from the spec: the number of trailing zero bits of n. -/
def trailing_zero_count (n : Nat) : Nat := trailing_zero_count_aux n n

/-- Modelled from the spec: floor base-2 logarithm (spec section 4.3 steps
2c and 2d), written with structural fuel so that it computes by kernel
reduction. -/
def log2_aux : Nat → Nat → Nat
  | 0, _ => 0
  | fuel + 1, n => if 2 ≤ n then log2_aux fuel (n / 2) + 1 else 0

/-- Modelled from the spec: floor base-2 logarithm; log2 0 = 0. -/
def log2 (n : Nat) : Nat := log2_aux n n

/-- Modelled from the spec: low_bits (spec section 4.3 step 2a), the
largest power-of-two alignment the cursor satisfies; 32 when the cursor
is zero. -/
def low_bits (cursor : Nat) : Nat :=
  if cursor = 0 then 32 else trailing_zero_count cursor

/-- Modelled from the spec: block_size (spec section 4.3 steps 2b-2d),
the minimum of the alignment bound 2 ^ low_bits cursor and the largest
power of two not exceeding the remaining length end - cursor + 1. -/
def block_size (cursor e : Nat) : Nat :=
  min (2 ^ low_bits cursor) (2 ^ log2 (e - cursor + 1))

/-- Modelled from the spec: the decomposition loop (spec section 4.3 step
2), written with structural fuel so that it computes by kernel reduction;
fuel e + 1 - cursor always suffices since every block has size at least 1. -/
def to_subnet_aux : Nat → Nat → Nat → List SubnetBlock
  | 0, _, _ => []
  | fuel + 1, cursor, e =>
    if cursor ≤ e then
      { base := cursor, prefix_bits := 32 - log2 (block_size cursor e) } ::
        to_subnet_aux fuel (cursor + block_size cursor e) e
    else
      []

/-- Modelled from the spec: DevaddrConstraint::to_subnet on the raw bounds
(spec section 4.3): decompose the inclusive range into aligned blocks,
left to right. -/
def to_subnet (start e : Nat) : List SubnetBlock :=
  to_subnet_aux (e + 1 - start) start e

/-- Modelled from the spec: the address set of a SubnetBlock (spec section
3): base up to base + 2 ^ (32 - prefix_bits) - 1 inclusive. -/
def covers (b : SubnetBlock) (a : Nat) : Prop :=
  b.base ≤ a ∧ a < b.base + 2 ^ (32 - b.prefix_bits)

instance (b : SubnetBlock) (a : Nat) : Decidable (covers b a) := by
  unfold covers; infer_instance

/- ======================= General helper lemmas ======================= -/

/-- filterMap with a step that either keeps a transformed element or drops
it equals filtering by the keep predicate and mapping the transform. -/
theorem filterMap_eq_filter_map_of {α β : Type} (g : α → Option β)
    (p : α → Bool) (f : α → β)
    (h : ∀ a, g a = if p a then some (f a) else none) :
    ∀ l : List α, l.filterMap g = (l.filter p).map f := by
  intro l
  induction l with
  | nil => rfl
  | cons x xs ih =>
    by_cases hx : p x
    · simp [List.filterMap_cons, List.filter_cons, hx, h x, ih]
    · simp [List.filterMap_cons, List.filter_cons, hx, h x, ih]

/- ======================= Claim theorems ======================= -/

/-- C1: for every signable message m and keypair, sign returns the
asymmetric signature computed over the deterministic serialization of a
copy of m whose signature field has been replaced by the empty byte
sequence; consequently the returned signature does not depend on whatever
bytes the signature field of m held before the call. -/
theorem sign_canonicalizes_and_ignores_prior_signature {α : Type}
    (keypair : List Nat → Except String (List Nat))
    (encode : SignableMsg α → List Nat) (m : SignableMsg α) (s : List Nat) :
    msgSign keypair encode { m with signature := s }
        = keypair (encode { m with signature := [] })
      ∧ msgSign keypair encode { m with signature := s }
        = msgSign keypair encode m :=
  ⟨rfl, rfl⟩

/-- C9: the mapping between the local Region enum and the wire-protocol
region enum is a bijection on the 14 listed variants: converting a Region
to ProtoRegion and back is the identity, and conversely. -/
theorem region_proto_region_bijection :
    (∀ r : Region, r.toProtoRegion.toRegion = r)
      ∧ (∀ p : ProtoRegion, p.toRegion.toProtoRegion = p) := by
  refine ⟨fun r => ?_, fun p => ?_⟩
  · cases r <;> rfl
  · cases p <;> rfl

/-- C10: Eui::new is total and performs no validation: for every route_id
string and every pair of app_eui and dev_eui values (equal or zero values
included) it returns Ok with fields exactly equal to the arguments, in
contrast to the range constructor, which can fail. -/
theorem eui_new_total :
    (∀ (route_id : String) (app_eui dev_eui : Nat),
        Eui.new route_id app_eui dev_eui
          = Except.ok { route_id := route_id, app_eui := app_eui, dev_eui := dev_eui })
      ∧ (DevaddrRange.new "the-route-id" 0x22334455 0x11223344).isOk = false :=
  ⟨fun _ _ _ => rfl, by decide⟩

/-- C5: constructing a DevaddrRange (and likewise a DevaddrConstraint)
fails exactly when end_addr < start_addr, with the InvalidRangeError
message of the source; when start_addr is at most end_addr it returns a
value whose fields equal the inputs. -/
theorem devaddr_range_new_validates (route_id : String) (s e : Nat) :
    (e < s →
        DevaddrRange.new route_id s e
            = Except.error "start_addr cannot be greater than end_addr"
          ∧ DevaddrConstraint.new s e
            = Except.error "start_addr cannot be greater than end_addr")
      ∧ (s ≤ e →
        DevaddrRange.new route_id s e
            = Except.ok { route_id := route_id, start_addr := s, end_addr := e }
          ∧ DevaddrConstraint.new s e
            = Except.ok { start_addr := s, end_addr := e }) := by
  constructor
  · intro h
    exact ⟨by simp [DevaddrRange.new, h], by simp [DevaddrConstraint.new, h]⟩
  · intro h
    exact ⟨by simp [DevaddrRange.new, Nat.not_lt.mpr h],
           by simp [DevaddrConstraint.new, Nat.not_lt.mpr h]⟩

/-- Witness for C5 at the concrete inputs of the spec (start=0x22334455,
end=0x11223344 for the failing direction). -/
theorem devaddr_range_new_validates_witness :
    ((0x11223344 : Nat) < 0x22334455
      ∧ DevaddrRange.new "the-route-id" 0x22334455 0x11223344
          = Except.error "start_addr cannot be greater than end_addr"
      ∧ DevaddrConstraint.new 0x22334455 0x11223344
          = Except.error "start_addr cannot be greater than end_addr")
    ∧ ((0x11223344 : Nat) ≤ 0x22334455
      ∧ DevaddrRange.new "the-route-id" 0x11223344 0x22334455
          = Except.ok { route_id := "the-route-id",
                        start_addr := 0x11223344, end_addr := 0x22334455 }
      ∧ DevaddrConstraint.new 0x11223344 0x22334455
          = Except.ok { start_addr := 0x11223344, end_addr := 0x22334455 }) :=
  ⟨⟨by decide,
    (devaddr_range_new_validates "the-route-id" 0x22334455 0x11223344).1 (by decide)⟩,
   ⟨by decide,
    (devaddr_range_new_validates "the-route-id" 0x11223344 0x22334455).2 (by decide)⟩⟩

/-- C3: in every batch operation, an element whose signing fails is
silently omitted from the outgoing request list while every element whose
signing succeeded is included, in the caller-supplied order, each carrying
its computed signature; the operation neither aborts nor reports which
elements were dropped (its result is just the list of successful
requests). -/
theorem batch_sign_silent_drop
    (kpD : List Nat → Except String (List Nat))
    (encD : RouteUpdateDevaddrRangesReqV1 → List Nat)
    (kpE : List Nat → Except String (List Nat))
    (encE : RouteUpdateEuisReqV1 → List Nat)
    (kpF : List Nat → Except String (List Nat))
    (encF : SessionKeyFilterUpdateReqV1 → List Nat)
    (clock : Nat → Nat) (ds : List DevaddrRange) (es : List Eui)
    (fs : List SessionKeyFilter) :
    (∀ action,
        (ds.filterMap (fun d =>
            match (mkUpdateDevaddrRangesReq action (clock 0) d).sign kpD encD with
            | Except.ok sig =>
                some { mkUpdateDevaddrRangesReq action (clock 0) d with signature := sig }
            | Except.error _ => none))
          = ((ds.filter (fun d =>
                ((mkUpdateDevaddrRangesReq action (clock 0) d).sign kpD encD).isOk)).map
              (fun d =>
                { mkUpdateDevaddrRangesReq action (clock 0) d with
                  signature :=
                    ((mkUpdateDevaddrRangesReq action (clock 0) d).sign kpD encD).toOption.getD [] })))
      ∧ add_devaddrs kpD encD clock ds
          = ((ds.filter (fun d =>
                ((mkUpdateDevaddrRangesReq ActionV1.add.toI32 (clock 0) d).sign kpD encD).isOk)).map
              (fun d =>
                { mkUpdateDevaddrRangesReq ActionV1.add.toI32 (clock 0) d with
                  signature :=
                    ((mkUpdateDevaddrRangesReq ActionV1.add.toI32 (clock 0) d).sign kpD encD).toOption.getD [] }))
      ∧ remove_devaddrs kpD encD clock ds
          = ((ds.filter (fun d =>
                ((mkUpdateDevaddrRangesReq ActionV1.remove.toI32 (clock 0) d).sign kpD encD).isOk)).map
              (fun d =>
                { mkUpdateDevaddrRangesReq ActionV1.remove.toI32 (clock 0) d with
                  signature :=
                    ((mkUpdateDevaddrRangesReq ActionV1.remove.toI32 (clock 0) d).sign kpD encD).toOption.getD [] }))
      ∧ add_euis kpE encE clock es
          = ((es.filter (fun x =>
                ((mkUpdateEuisReq ActionV1.add.toI32 (clock 0) x).sign kpE encE).isOk)).map
              (fun x =>
                { mkUpdateEuisReq ActionV1.add.toI32 (clock 0) x with
                  signature :=
                    ((mkUpdateEuisReq ActionV1.add.toI32 (clock 0) x).sign kpE encE).toOption.getD [] }))
      ∧ remove_euis kpE encE clock es
          = ((es.filter (fun x =>
                ((mkUpdateEuisReq ActionV1.remove.toI32 (clock 0) x).sign kpE encE).isOk)).map
              (fun x =>
                { mkUpdateEuisReq ActionV1.remove.toI32 (clock 0) x with
                  signature :=
                    ((mkUpdateEuisReq ActionV1.remove.toI32 (clock 0) x).sign kpE encE).toOption.getD [] }))
      ∧ add_filters kpF encF clock fs
          = ((fs.filter (fun x =>
                ((mkSkfUpdateReq ActionV1.add.toI32 (clock 0) x).sign kpF encF).isOk)).map
              (fun x =>
                { mkSkfUpdateReq ActionV1.add.toI32 (clock 0) x with
                  signature :=
                    ((mkSkfUpdateReq ActionV1.add.toI32 (clock 0) x).sign kpF encF).toOption.getD [] }))
      ∧ remove_filters kpF encF clock fs
          = ((fs.filter (fun x =>
                ((mkSkfUpdateReq ActionV1.remove.toI32 (clock 0) x).sign kpF encF).isOk)).map
              (fun x =>
                { mkSkfUpdateReq ActionV1.remove.toI32 (clock 0) x with
                  signature :=
                    ((mkSkfUpdateReq ActionV1.remove.toI32 (clock 0) x).sign kpF encF).toOption.getD [] })) := by
  have hD : ∀ action, _ := fun action =>
    filterMap_eq_filter_map_of
      (fun d =>
        match (mkUpdateDevaddrRangesReq action (clock 0) d).sign kpD encD with
        | Except.ok sig =>
            some { mkUpdateDevaddrRangesReq action (clock 0) d with signature := sig }
        | Except.error _ => none)
      (fun d => ((mkUpdateDevaddrRangesReq action (clock 0) d).sign kpD encD).isOk)
      (fun d =>
        { mkUpdateDevaddrRangesReq action (clock 0) d with
          signature :=
            ((mkUpdateDevaddrRangesReq action (clock 0) d).sign kpD encD).toOption.getD [] })
      (fun d => by
        cases h : (mkUpdateDevaddrRangesReq action (clock 0) d).sign kpD encD with
        | ok sig => simp [h, Except.isOk, Except.toBool, Except.toOption]
        | error e => simp [h, Except.isOk, Except.toBool, Except.toOption])
  have hE : ∀ action, _ := fun action =>
    filterMap_eq_filter_map_of
      (fun x =>
        match (mkUpdateEuisReq action (clock 0) x).sign kpE encE with
        | Except.ok sig =>
            some { mkUpdateEuisReq action (clock 0) x with signature := sig }
        | Except.error _ => none)
      (fun x => ((mkUpdateEuisReq action (clock 0) x).sign kpE encE).isOk)
      (fun x =>
        { mkUpdateEuisReq action (clock 0) x with
          signature :=
            ((mkUpdateEuisReq action (clock 0) x).sign kpE encE).toOption.getD [] })
      (fun x => by
        cases h : (mkUpdateEuisReq action (clock 0) x).sign kpE encE with
        | ok sig => simp [h, Except.isOk, Except.toBool, Except.toOption]
        | error e => simp [h, Except.isOk, Except.toBool, Except.toOption])
  have hF : ∀ action, _ := fun action =>
    filterMap_eq_filter_map_of
      (fun x =>
        match (mkSkfUpdateReq action (clock 0) x).sign kpF encF with
        | Except.ok sig =>
            some { mkSkfUpdateReq action (clock 0) x with signature := sig }
        | Except.error _ => none)
      (fun x => ((mkSkfUpdateReq action (clock 0) x).sign kpF encF).isOk)
      (fun x =>
        { mkSkfUpdateReq action (clock 0) x with
          signature :=
            ((mkSkfUpdateReq action (clock 0) x).sign kpF encF).toOption.getD [] })
      (fun x => by
        cases h : (mkSkfUpdateReq action (clock 0) x).sign kpF encF with
        | ok sig => simp [h, Except.isOk, Except.toBool, Except.toOption]
        | error e => simp [h, Except.isOk, Except.toBool, Except.toOption])
  refine ⟨fun action => hD action ds, hD ActionV1.add.toI32 ds, hD ActionV1.remove.toI32 ds,
          hE ActionV1.add.toI32 es, hE ActionV1.remove.toI32 es,
          hF ActionV1.add.toI32 fs, hF ActionV1.remove.toI32 fs⟩

/-- Counterexample for C2: the claim that each element of a batch is
signed with its own freshly obtained wall-clock timestamp is false.  With
a strictly increasing clock (call index n returns time n), an always
succeeding keypair and a two-element batch, both emitted requests carry
the same timestamp, so the timestamps are not pairwise distinct as a
per-element fresh clock reading would make them. -/
theorem batch_timestamp_not_fresh_counterexample :
    ¬ List.Pairwise (fun a b => a ≠ b)
      ((add_devaddrs (fun _ => Except.ok []) (fun _ => []) (fun n => n)
          [{ route_id := "the-route-id", start_addr := 1, end_addr := 2 },
           { route_id := "the-route-id", start_addr := 3, end_addr := 4 }]).map
        RouteUpdateDevaddrRangesReqV1.timestamp) := by
  decide

/-- C2 (amended): in every batch operation the elements are signed
independently, but they all share one timestamp, obtained once at the
start of the batch (the single wall-clock call, clock 0); every request
the operation emits carries that shared timestamp. -/
theorem batch_timestamp_shared_per_batch
    (kpD : List Nat → Except String (List Nat))
    (encD : RouteUpdateDevaddrRangesReqV1 → List Nat)
    (kpE : List Nat → Except String (List Nat))
    (encE : RouteUpdateEuisReqV1 → List Nat)
    (kpF : List Nat → Except String (List Nat))
    (encF : SessionKeyFilterUpdateReqV1 → List Nat)
    (clock : Nat → Nat) :
    (∀ ds r, r ∈ add_devaddrs kpD encD clock ds → r.timestamp = clock 0)
      ∧ (∀ ds r, r ∈ remove_devaddrs kpD encD clock ds → r.timestamp = clock 0)
      ∧ (∀ es r, r ∈ add_euis kpE encE clock es → r.timestamp = clock 0)
      ∧ (∀ es r, r ∈ remove_euis kpE encE clock es → r.timestamp = clock 0)
      ∧ (∀ fs r, r ∈ add_filters kpF encF clock fs → r.timestamp = clock 0)
      ∧ (∀ fs r, r ∈ remove_filters kpF encF clock fs → r.timestamp = clock 0) := by
  have key : ∀ {α β : Type} (g : α → Option β) (tsOf : β → Nat) (ts : Nat),
      (∀ a b, g a = some b → tsOf b = ts) →
      ∀ (l : List α) (b : β), b ∈ l.filterMap g → tsOf b = ts := by
    intro α β g tsOf ts h l b hb
    rcases List.mem_filterMap.1 hb with ⟨a, _, ha⟩
    exact h a b ha
  refine ⟨?_, ?_, ?_, ?_, ?_, ?_⟩
  · intro ds r hr
    simp only [add_devaddrs] at hr
    refine key _ RouteUpdateDevaddrRangesReqV1.timestamp (clock 0) ?_ ds r hr
    intro d b hg
    cases h : (mkUpdateDevaddrRangesReq ActionV1.add.toI32 (clock 0) d).sign kpD encD with
    | ok sig => rw [h] at hg; simp only [Option.some.injEq] at hg; subst hg; rfl
    | error e => rw [h] at hg; exact Option.noConfusion hg
  · intro ds r hr
    simp only [remove_devaddrs] at hr
    refine key _ RouteUpdateDevaddrRangesReqV1.timestamp (clock 0) ?_ ds r hr
    intro d b hg
    cases h : (mkUpdateDevaddrRangesReq ActionV1.remove.toI32 (clock 0) d).sign kpD encD with
    | ok sig => rw [h] at hg; simp only [Option.some.injEq] at hg; subst hg; rfl
    | error e => rw [h] at hg; exact Option.noConfusion hg
  · intro es r hr
    simp only [add_euis] at hr
    refine key _ RouteUpdateEuisReqV1.timestamp (clock 0) ?_ es r hr
    intro x b hg
    cases h : (mkUpdateEuisReq ActionV1.add.toI32 (clock 0) x).sign kpE encE with
    | ok sig => rw [h] at hg; simp only [Option.some.injEq] at hg; subst hg; rfl
    | error e => rw [h] at hg; exact Option.noConfusion hg
  · intro es r hr
    simp only [remove_euis] at hr
    refine key _ RouteUpdateEuisReqV1.timestamp (clock 0) ?_ es r hr
    intro x b hg
    cases h : (mkUpdateEuisReq ActionV1.remove.toI32 (clock 0) x).sign kpE encE with
    | ok sig => rw [h] at hg; simp only [Option.some.injEq] at hg; subst hg; rfl
    | error e => rw [h] at hg; exact Option.noConfusion hg
  · intro fs r hr
    simp only [add_filters] at hr
    refine key _ SessionKeyFilterUpdateReqV1.timestamp (clock 0) ?_ fs r hr
    intro x b hg
    cases h : (mkSkfUpdateReq ActionV1.add.toI32 (clock 0) x).sign kpF encF with
    | ok sig => rw [h] at hg; simp only [Option.some.injEq] at hg; subst hg; rfl
    | error e => rw [h] at hg; exact Option.noConfusion hg
  · intro fs r hr
    simp only [remove_filters] at hr
    refine key _ SessionKeyFilterUpdateReqV1.timestamp (clock 0) ?_ fs r hr
    intro x b hg
    cases h : (mkSkfUpdateReq ActionV1.remove.toI32 (clock 0) x).sign kpF encF with
    | ok sig => rw [h] at hg; simp only [Option.some.injEq] at hg; subst hg; rfl
    | error e => rw [h] at hg; exact Option.noConfusion hg

/-- Witness for C2 (amended) at a concrete batch: the emitted request of a
singleton add_devaddrs batch under the identity clock carries timestamp
clock 0 = 0. -/
theorem batch_timestamp_shared_per_batch_witness :
    { action := ActionV1.add.toI32, timestamp := 0, signature := [],
      devaddr_range := some { route_id := "the-route-id", start_addr := 1, end_addr := 2 } }
        ∈ add_devaddrs (fun _ => Except.ok []) (fun _ => []) (fun n => n)
            [{ route_id := "the-route-id", start_addr := 1, end_addr := 2 }]
      ∧ RouteUpdateDevaddrRangesReqV1.timestamp
          { action := ActionV1.add.toI32, timestamp := 0, signature := [],
            devaddr_range := some { route_id := "the-route-id", start_addr := 1, end_addr := 2 } }
          = (fun n => n) 0 :=
  ⟨by decide,
   (batch_timestamp_shared_per_batch (fun _ => Except.ok []) (fun _ => [])
      (fun _ => Except.ok []) (fun _ => []) (fun _ => Except.ok []) (fun _ => [])
      (fun n => n)).1
     [{ route_id := "the-route-id", start_addr := 1, end_addr := 2 }]
     { action := ActionV1.add.toI32, timestamp := 0, signature := [],
       devaddr_range := some { route_id := "the-route-id", start_addr := 1, end_addr := 2 } }
     (by decide)⟩

/- ================= Hex codec lemmas and claim C8 ================= -/

/-- Round trip through the digit table, character side: every accepted hex
character maps to a value below 16 and back to itself. -/
theorem hex_digit_char_round : ∀ c ∈ hex_chars,
    to_hex_digit (hex_digit_val c) = c ∧ hex_digit_val c < 16 := by
  decide

/-- Round trip through the digit table, value side: every digit value
below 16 maps to an accepted hex character and back to itself. -/
theorem hex_digit_val_round : ∀ d, d < 16 →
    hex_digit_val (to_hex_digit d) = d ∧ is_hex_digit (to_hex_digit d) = true := by
  decide

/-- format_digits always emits exactly n characters. -/
theorem format_digits_length (n : Nat) : ∀ v, (format_digits n v).length = n := by
  induction n with
  | zero => intro v; rfl
  | succ n ih =>
    intro v
    simp [format_digits, ih]

/-- format_digits only emits hex digit characters. -/
theorem format_digits_all_hex (n : Nat) : ∀ v,
    (format_digits n v).all is_hex_digit = true := by
  induction n with
  | zero => intro v; rfl
  | succ n ih =>
    intro v
    have hd := (hex_digit_val_round (v % 16) (Nat.mod_lt v (by norm_num))).2
    simp [format_digits, List.all_append, ih, hd]

/-- parse_val over a string extended by one digit on the right. -/
theorem parse_val_append (l : List Char) (c : Char) :
    parse_val (l ++ [c]) = 16 * parse_val l + hex_digit_val c := by
  simp [parse_val, List.foldl_append]

/-- Value round trip of the digit level: parsing the formatted digits of
any value below 16 ^ n recovers the value. -/
theorem parse_val_format_digits (n : Nat) : ∀ v, v < 16 ^ n →
    parse_val (format_digits n v) = v := by
  induction n with
  | zero =>
    intro v hv
    interval_cases v
    rfl
  | succ n ih =>
    intro v hv
    have hdiv : v / 16 < 16 ^ n := by
      rw [Nat.div_lt_iff_lt_mul (by norm_num : (0:Nat) < 16)]
      calc v < 16 ^ (n + 1) := hv
        _ = 16 ^ n * 16 := by rw [pow_succ]
    have hmod : v % 16 < 16 := Nat.mod_lt v (by norm_num)
    rw [format_digits, parse_val_append, ih _ hdiv,
        (hex_digit_val_round (v % 16) hmod).1]
    exact Nat.div_add_mod v 16
/-- Text round trip of the digit level: formatting the parsed value of an
all-hex digit string of length n reproduces the string. -/
theorem format_digits_parse_val : ∀ l : List Char,
    l.all is_hex_digit = true → format_digits l.length (parse_val l) = l := by
  intro l
  induction l using List.reverseRecOn with
  | nil => intro _; rfl
  | append_singleton l c ih =>
    intro hall
    simp only [List.all_append, List.all_cons, List.all_nil, Bool.and_true,
      Bool.and_eq_true] at hall
    have hl : l.all is_hex_digit = true := hall.1
    have hc : c ∈ hex_chars := of_decide_eq_true hall.2
    have hcv := hex_digit_char_round c hc
    have hlen : (l ++ [c]).length = l.length + 1 := by simp
    rw [hlen, parse_val_append, format_digits]
    have hdiv : (16 * parse_val l + hex_digit_val c) / 16 = parse_val l := by
      rw [Nat.mul_add_div (by norm_num : (0:Nat) < 16),
          Nat.div_eq_of_lt hcv.2]
      exact Nat.add_zero _
    have hmod : (16 * parse_val l + hex_digit_val c) % 16 = hex_digit_val c := by
      rw [Nat.mul_add_mod, Nat.mod_eq_of_lt hcv.2]
    rw [hdiv, hmod, ih hl, hcv.1]

/-- C8: the fixed-width hex codec satisfies the round-trip laws.  For
every value v below 2 ^ N (with n = N/4 digits), parsing the formatted
text recovers v, and the formatted text consists of exactly n accepted
(uppercase) hex digits, zero-padded; conversely, for every text t the
codec accepts, formatting the parsed value reproduces t exactly. -/
theorem hex_codec_round_trip (n : Nat) :
    (∀ v, v < 2 ^ (4 * n) →
        parse_hex n (format_hex n v) = some v
          ∧ (format_hex n v).data.length = n
          ∧ (format_hex n v).data.all is_hex_digit = true)
      ∧ (∀ (t : String) (v : Nat), parse_hex n t = some v → format_hex n v = t) := by
  constructor
  · intro v hv
    have hv16 : v < 16 ^ n := by
      have hpow : (2:Nat) ^ (4 * n) = 16 ^ n := by
        rw [pow_mul]
        norm_num
      rw [hpow] at hv
      exact hv
    have hdata : (format_hex n v).data = format_digits n v := rfl
    have hlen : (format_hex n v).data.length = n := by
      rw [hdata]; exact format_digits_length n v
    have hall : (format_hex n v).data.all is_hex_digit = true := by
      rw [hdata]; exact format_digits_all_hex n v
    refine ⟨?_, hlen, hall⟩
    rw [parse_hex, if_pos ⟨hlen, hall⟩, hdata, parse_val_format_digits n v hv16]
  · intro t v hp
    rw [parse_hex] at hp
    by_cases hc : t.data.length = n ∧ t.data.all is_hex_digit = true
    · rw [if_pos hc] at hp
      have hv : parse_val t.data = v := by
        injection hp
      have hfmt := format_digits_parse_val t.data hc.2
      rw [hc.1] at hfmt
      rw [← hv, format_hex, hfmt]
    · rw [if_neg hc] at hp
      exact Option.noConfusion hp

/-- Witness for C8 at the concrete 8-digit devaddr width: the devaddr
0x11223344 formats to the text 11223344 and back. -/
theorem hex_codec_round_trip_witness :
    ((287454020 : Nat) < 2 ^ (4 * 8)
        ∧ parse_hex 8 (format_hex 8 287454020) = some 287454020)
      ∧ (parse_hex 8 "11223344" = some 287454020
        ∧ format_hex 8 287454020 = "11223344") :=
  ⟨⟨by decide, ((hex_codec_round_trip 8).1 287454020 (by decide)).1⟩,
   ⟨by decide, (hex_codec_round_trip 8).2 "11223344" 287454020 (by decide)⟩⟩

/- ============ Subnet decomposition lemmas (claims C4, C6, C7) ============ -/

/-- covers on a literal block, unfolded. -/
theorem covers_mk (base p a : Nat) :
    covers { base := base, prefix_bits := p } a
      ↔ (base ≤ a ∧ a < base + 2 ^ (32 - p)) :=
  Iff.rfl

/-- The fuel of trailing_zero_count_aux does not matter once it is at
least the argument. -/
theorem trailing_zero_count_aux_congr :
    ∀ (f1 f2 n : Nat), n ≤ f1 → n ≤ f2 →
      trailing_zero_count_aux f1 n = trailing_zero_count_aux f2 n := by
  intro f1
  induction f1 with
  | zero =>
    intro f2 n h1 _
    interval_cases n
    cases f2 <;> simp [trailing_zero_count_aux]
  | succ f ih =>
    intro f2 n h1 h2
    cases f2 with
    | zero =>
      interval_cases n
      simp [trailing_zero_count_aux]
    | succ f2' =>
      by_cases hn : n % 2 = 0 ∧ 0 < n
      · have hlt : n / 2 < n := Nat.div_lt_self hn.2 (by norm_num)
        simp only [trailing_zero_count_aux, if_pos hn]
        rw [ih f2' (n / 2) (by omega) (by omega)]
      · simp only [trailing_zero_count_aux, if_neg hn]

/-- One-step unfolding of trailing_zero_count. -/
theorem trailing_zero_count_eq (n : Nat) :
    trailing_zero_count n
      = if n % 2 = 0 ∧ 0 < n then trailing_zero_count (n / 2) + 1 else 0 := by
  by_cases hn : n % 2 = 0 ∧ 0 < n
  · rw [if_pos hn]
    show trailing_zero_count_aux n n = _
    obtain ⟨m, rfl⟩ : ∃ m, n = m + 1 := ⟨n - 1, by omega⟩
    simp only [trailing_zero_count_aux, if_pos hn]
    rw [trailing_zero_count_aux_congr m ((m + 1) / 2) ((m + 1) / 2) (by omega) (le_refl _)]
    rfl
  · rw [if_neg hn]
    show trailing_zero_count_aux n n = 0
    cases n with
    | zero => rfl
    | succ m => simp only [trailing_zero_count_aux, if_neg hn]

/-- The fuel of log2_aux does not matter once it is at least the argument. -/
theorem log2_aux_congr :
    ∀ (f1 f2 n : Nat), n ≤ f1 → n ≤ f2 → log2_aux f1 n = log2_aux f2 n := by
  intro f1
  induction f1 with
  | zero =>
    intro f2 n h1 _
    interval_cases n
    cases f2 <;> simp [log2_aux]
  | succ f ih =>
    intro f2 n h1 h2
    cases f2 with
    | zero =>
      interval_cases n
      simp [log2_aux]
    | succ f2' =>
      by_cases hn : 2 ≤ n
      · have hlt : n / 2 < n := Nat.div_lt_self (by omega) (by norm_num)
        simp only [log2_aux, if_pos hn]
        rw [ih f2' (n / 2) (by omega) (by omega)]
      · simp only [log2_aux, if_neg hn]

/-- One-step unfolding of log2. -/
theorem log2_eq (n : Nat) :
    log2 n = if 2 ≤ n then log2 (n / 2) + 1 else 0 := by
  by_cases hn : 2 ≤ n
  · rw [if_pos hn]
    show log2_aux n n = _
    obtain ⟨m, rfl⟩ : ∃ m, n = m + 1 := ⟨n - 1, by omega⟩
    simp only [log2_aux, if_pos hn]
    rw [log2_aux_congr m ((m + 1) / 2) ((m + 1) / 2) (by omega) (le_refl _)]
    rfl
  · rw [if_neg hn]
    show log2_aux n n = 0
    cases n with
    | zero => rfl
    | succ m => simp only [log2_aux, if_neg hn]

/-- log2 inverts powers of two. -/
theorem log2_two_pow : ∀ k, log2 (2 ^ k) = k := by
  intro k
  induction k with
  | zero => rfl
  | succ k ih =>
    rw [log2_eq]
    have h2 : 2 ≤ 2 ^ (k + 1) := by
      calc (2:Nat) = 2 ^ 1 := (pow_one 2).symm
        _ ≤ 2 ^ (k + 1) := Nat.pow_le_pow_right (by norm_num) (by omega)
    rw [if_pos h2]
    have hdiv : 2 ^ (k + 1) / 2 = 2 ^ k := by
      rw [pow_succ]
      exact Nat.mul_div_cancel _ (by norm_num)
    rw [hdiv, ih]

/-- The power of two picked by log2 does not exceed a positive argument. -/
theorem two_pow_log2_le : ∀ n, 1 ≤ n → 2 ^ log2 n ≤ n := by
  intro n
  induction n using Nat.strong_induction_on with
  | _ n ih =>
    intro h1
    rw [log2_eq]
    by_cases h2 : 2 ≤ n
    · rw [if_pos h2]
      have hlt : n / 2 < n := Nat.div_lt_self (by omega) (by norm_num)
      have hrec := ih (n / 2) hlt (by omega)
      calc 2 ^ (log2 (n / 2) + 1) = 2 ^ log2 (n / 2) * 2 := by rw [pow_succ]
        _ ≤ (n / 2) * 2 := by omega
        _ ≤ n := by omega
    · rw [if_neg h2]
      simpa using h1

/-- Two to the trailing zero count divides the number. -/
theorem two_pow_tzc_dvd : ∀ n, 2 ^ trailing_zero_count n ∣ n := by
  intro n
  induction n using Nat.strong_induction_on with
  | _ n ih =>
    rw [trailing_zero_count_eq]
    by_cases hn : n % 2 = 0 ∧ 0 < n
    · rw [if_pos hn]
      have hlt : n / 2 < n := Nat.div_lt_self hn.2 (by norm_num)
      have hpow : (2:Nat) ^ (trailing_zero_count (n / 2) + 1)
          = 2 * 2 ^ trailing_zero_count (n / 2) := by
        rw [pow_succ]
        ring
      have hsplit : n = 2 * (n / 2) := by omega
      obtain ⟨k, hk⟩ := ih (n / 2) hlt
      refine ⟨k, ?_⟩
      rw [hpow]
      have h2 : 2 * (n / 2) = 2 * 2 ^ trailing_zero_count (n / 2) * k := by
        conv_lhs => rw [hk]
        ring
      exact hsplit.trans h2
    · rw [if_neg hn]
      simp

/-- min distributes over powers of two. -/
theorem two_pow_min (a b : Nat) : min (2 ^ a) (2 ^ b) = 2 ^ min a b := by
  rcases le_total a b with h | h
  · rw [min_eq_left (Nat.pow_le_pow_right (by norm_num) h), min_eq_left h]
  · rw [min_eq_right (Nat.pow_le_pow_right (by norm_num) h), min_eq_right h]

/-- The block size is the power of two given by the smaller of the
alignment exponent and the remaining-length exponent. -/
theorem block_size_eq_pow (c e : Nat) :
    block_size c e = 2 ^ min (low_bits c) (log2 (e - c + 1)) := by
  rw [block_size, two_pow_min]

/-- Every block has size at least one. -/
theorem block_size_pos (c e : Nat) : 0 < block_size c e := by
  rw [block_size_eq_pow]
  exact pow_pos (by norm_num) _

/-- The head block fits inside the remaining range. -/
theorem block_size_le_remaining (c e : Nat) (h : c ≤ e) :
    c + block_size c e ≤ e + 1 := by
  have h1 : block_size c e ≤ 2 ^ log2 (e - c + 1) := by
    rw [block_size]
    exact min_le_right _ _
  have h2 : 2 ^ log2 (e - c + 1) ≤ e - c + 1 := two_pow_log2_le _ (by omega)
  omega

/-- The block size divides the cursor: the emitted block is aligned. -/
theorem block_size_dvd (c e : Nat) : block_size c e ∣ c := by
  rcases Nat.eq_zero_or_pos c with rfl | hc
  · exact dvd_zero _
  · rw [block_size_eq_pow]
    have hlow : low_bits c = trailing_zero_count c := by
      rw [low_bits, if_neg (by omega)]
    have hmin : min (low_bits c) (log2 (e - c + 1)) ≤ trailing_zero_count c := by
      calc min (low_bits c) (log2 (e - c + 1)) ≤ low_bits c := min_le_left _ _
        _ = trailing_zero_count c := hlow
    exact dvd_trans (pow_dvd_pow 2 hmin) (two_pow_tzc_dvd c)

/-- Inside the 32-bit space the remaining-length exponent stays at most 32. -/
theorem log2_remaining_le (c e : Nat) (h : c ≤ e) (h32 : e < 2 ^ 32) :
    log2 (e - c + 1) ≤ 32 := by
  by_contra hgt
  push_neg at hgt
  have h1 : (2:Nat) ^ 33 ≤ 2 ^ log2 (e - c + 1) :=
    Nat.pow_le_pow_right (by norm_num) (by omega)
  have h2 : (2:Nat) ^ log2 (e - c + 1) ≤ e - c + 1 := two_pow_log2_le _ (by omega)
  have e1 : (2:Nat) ^ 33 = 8589934592 := by norm_num
  have e2 : (2:Nat) ^ 32 = 4294967296 := by norm_num
  rw [e1] at h1
  rw [e2] at h32
  omega

/-- The address-set size encoded by the emitted prefix equals the block
size actually consumed. -/
theorem head_size_eq (c e : Nat) (h : c ≤ e) (h32 : e < 2 ^ 32) :
    2 ^ (32 - (32 - log2 (block_size c e))) = block_size c e := by
  have hlog : log2 (block_size c e) = min (low_bits c) (log2 (e - c + 1)) := by
    rw [block_size_eq_pow, log2_two_pow]
  have hle : log2 (block_size c e) ≤ 32 := by
    rw [hlog]
    calc min (low_bits c) (log2 (e - c + 1)) ≤ log2 (e - c + 1) := min_le_right _ _
      _ ≤ 32 := log2_remaining_le c e h h32
  have hsub : 32 - (32 - log2 (block_size c e)) = log2 (block_size c e) := by omega
  rw [hsub, hlog, ← block_size_eq_pow]

/-- The fuel of to_subnet_aux does not matter once it is at least the
remaining length. -/
theorem to_subnet_aux_congr :
    ∀ (f1 f2 c e : Nat), e + 1 - c ≤ f1 → e + 1 - c ≤ f2 →
      to_subnet_aux f1 c e = to_subnet_aux f2 c e := by
  intro f1
  induction f1 with
  | zero =>
    intro f2 c e h1 _
    have hce : ¬ c ≤ e := by omega
    cases f2 with
    | zero => rfl
    | succ f2' => simp [to_subnet_aux, hce]
  | succ f ih =>
    intro f2 c e h1 h2
    cases f2 with
    | zero =>
      have hce : ¬ c ≤ e := by omega
      simp [to_subnet_aux, hce]
    | succ f2' =>
      by_cases hce : c ≤ e
      · have hbs := block_size_pos c e
        simp only [to_subnet_aux, if_pos hce]
        rw [ih f2' (c + block_size c e) e (by omega) (by omega)]
      · simp only [to_subnet_aux, if_neg hce]

/-- One-step unfolding of the decomposition loop. -/
theorem to_subnet_eq (c e : Nat) :
    to_subnet c e
      = if c ≤ e then
          { base := c, prefix_bits := 32 - log2 (block_size c e) } ::
            to_subnet (c + block_size c e) e
        else [] := by
  by_cases hce : c ≤ e
  · rw [if_pos hce]
    show to_subnet_aux (e + 1 - c) c e = _
    obtain ⟨f, hf⟩ : ∃ f, e + 1 - c = f + 1 := ⟨e - c, by omega⟩
    rw [hf]
    simp only [to_subnet_aux, if_pos hce]
    congr 1
    show to_subnet_aux f (c + block_size c e) e
        = to_subnet_aux (e + 1 - (c + block_size c e)) (c + block_size c e) e
    exact to_subnet_aux_congr f (e + 1 - (c + block_size c e))
      (c + block_size c e) e (by have := block_size_pos c e; omega) (le_refl _)
  · rw [if_neg hce]
    show to_subnet_aux (e + 1 - c) c e = []
    have hz : e + 1 - c = 0 := by omega
    rw [hz]
    rfl

/-- Coverage of the decomposition, by induction on the remaining length:
the blocks emitted from cursor c cover exactly the addresses from c to e. -/
theorem to_subnet_cover_aux :
    ∀ (k c e : Nat), e + 1 - c ≤ k → e < 2 ^ 32 →
      ∀ a, (∃ b ∈ to_subnet c e, covers b a) ↔ (c ≤ a ∧ a ≤ e) := by
  intro k
  induction k with
  | zero =>
    intro c e h1 _ a
    have hce : ¬ c ≤ e := by omega
    rw [to_subnet_eq, if_neg hce]
    simp
    omega
  | succ k ih =>
    intro c e h1 h32 a
    by_cases hce : c ≤ e
    · rw [to_subnet_eq, if_pos hce]
      have hbs := block_size_pos c e
      have hfit := block_size_le_remaining c e hce
      have hsize := head_size_eq c e hce h32
      have hih := ih (c + block_size c e) e (by omega) h32 a
      simp only [List.mem_cons, exists_eq_or_imp]
      rw [hih, covers_mk, hsize]
      constructor
      · rintro (⟨hb1, hb2⟩ | ⟨hb1, hb2⟩) <;> omega
      · rintro ⟨ha1, ha2⟩
        by_cases hlt : a < c + block_size c e
        · exact Or.inl ⟨ha1, hlt⟩
        · exact Or.inr ⟨by omega, ha2⟩
    · rw [to_subnet_eq, if_neg hce]
      simp
      omega

/-- Disjointness of the decomposition: the emitted blocks cover pairwise
disjoint address sets. -/
theorem to_subnet_disjoint_aux :
    ∀ (k c e : Nat), e + 1 - c ≤ k → e < 2 ^ 32 →
      List.Pairwise (fun b1 b2 => ∀ a, ¬ (covers b1 a ∧ covers b2 a))
        (to_subnet c e) := by
  intro k
  induction k with
  | zero =>
    intro c e h1 _
    rw [to_subnet_eq, if_neg (by omega)]
    exact List.Pairwise.nil
  | succ k ih =>
    intro c e h1 h32
    by_cases hce : c ≤ e
    · rw [to_subnet_eq, if_pos hce]
      have hbs := block_size_pos c e
      have hsize := head_size_eq c e hce h32
      refine List.Pairwise.cons ?_ (ih (c + block_size c e) e (by omega) h32)
      rintro b' hb' a ⟨hca, hcb⟩
      rw [covers_mk, hsize] at hca
      have h2a : c + block_size c e ≤ a :=
        ((to_subnet_cover_aux k (c + block_size c e) e (by omega) h32 a).1
          ⟨b', hb', hcb⟩).1
      omega
    · rw [to_subnet_eq, if_neg hce]
      exact List.Pairwise.nil

/-- Alignment of the decomposition: every emitted block has a base that
is a multiple of the size its prefix encodes. -/
theorem to_subnet_align_aux :
    ∀ (k c e : Nat), e + 1 - c ≤ k → e < 2 ^ 32 →
      ∀ b ∈ to_subnet c e, 2 ^ (32 - b.prefix_bits) ∣ b.base := by
  intro k
  induction k with
  | zero =>
    intro c e h1 _ b hb
    rw [to_subnet_eq, if_neg (by omega)] at hb
    exact absurd hb (List.not_mem_nil b)
  | succ k ih =>
    intro c e h1 h32 b hb
    by_cases hce : c ≤ e
    · rw [to_subnet_eq, if_pos hce] at hb
      have hbs := block_size_pos c e
      rcases List.mem_cons.1 hb with rfl | hb'
      · show 2 ^ (32 - (32 - log2 (block_size c e))) ∣ c
        rw [head_size_eq c e hce h32]
        exact block_size_dvd c e
      · exact ih (c + block_size c e) e (by omega) h32 b hb'
    · rw [to_subnet_eq, if_neg hce] at hb
      exact absurd hb (List.not_mem_nil b)

/-- C4: for all valid (start, end) with start at most end inside the
32-bit address space, the decomposition engine returns blocks whose union
of address sets is exactly the inclusive range, pairwise disjoint, and
each block's base is a multiple of the block's own size. -/
theorem subnet_decomposition_sound (s e : Nat) (h1 : s ≤ e) (h2 : e < 2 ^ 32) :
    (∀ a, (∃ b ∈ to_subnet s e, covers b a) ↔ (s ≤ a ∧ a ≤ e))
      ∧ List.Pairwise (fun b1 b2 => ∀ a, ¬ (covers b1 a ∧ covers b2 a))
          (to_subnet s e)
      ∧ (∀ b ∈ to_subnet s e, 2 ^ (32 - b.prefix_bits) ∣ b.base) :=
  ⟨fun a => to_subnet_cover_aux (e + 1 - s) s e (le_refl _) h2 a,
   to_subnet_disjoint_aux (e + 1 - s) s e (le_refl _) h2,
   to_subnet_align_aux (e + 1 - s) s e (le_refl _) h2⟩

/-- Witness for C4 at the concrete range 1..6. -/
theorem subnet_decomposition_sound_witness :
    ((1 : Nat) ≤ 6 ∧ (6 : Nat) < 2 ^ 32)
      ∧ ((∀ a, (∃ b ∈ to_subnet 1 6, covers b a) ↔ (1 ≤ a ∧ a ≤ 6))
        ∧ List.Pairwise (fun b1 b2 => ∀ a, ¬ (covers b1 a ∧ covers b2 a))
            (to_subnet 1 6)
        ∧ (∀ b ∈ to_subnet 1 6, 2 ^ (32 - b.prefix_bits) ∣ b.base)) :=
  ⟨⟨by decide, by decide⟩, subnet_decomposition_sound 1 6 (by decide) (by decide)⟩

/-- Counterexample for C6: decomposing the range 1..2 does not yield two
blocks with prefix_bits 31; a single-address block carries prefix_bits 32,
so the claimed output is not what the engine produces. -/
theorem subnet_one_two_not_prefix_31 :
    to_subnet 1 2
      ≠ [{ base := 1, prefix_bits := 31 }, { base := 2, prefix_bits := 31 }] := by
  decide

/-- C6 (amended): decomposing the range 1..2 yields exactly two blocks,
each with prefix_bits 32, covering address 1 and address 2 respectively,
since address 1 is odd and cannot start an aligned block of size 2. -/
theorem subnet_one_two_blocks :
    to_subnet 1 2
      = [{ base := 1, prefix_bits := 32 }, { base := 2, prefix_bits := 32 }] := by
  decide

/-- C7: decomposing a single-address range start == end yields exactly one
block with prefix_bits 32 based at that address, and decomposing the full
32-bit range 0 .. 0xFFFFFFFF yields exactly one block with base 0 and
prefix_bits 0. -/
theorem subnet_edge_cases :
    (∀ s, s < 2 ^ 32 → to_subnet s s = [{ base := s, prefix_bits := 32 }])
      ∧ to_subnet 0 (2 ^ 32 - 1) = [{ base := 0, prefix_bits := 0 }] := by
  constructor
  · intro s _
    rw [to_subnet_eq, if_pos (le_refl s)]
    have hbs : block_size s s = 1 := by
      rw [block_size]
      have h1 : s - s + 1 = 1 := by omega
      rw [h1]
      have h2 : log2 1 = 0 := rfl
      rw [h2, pow_zero]
      exact min_eq_right Nat.one_le_two_pow
    rw [hbs]
    have h3 : log2 1 = 0 := rfl
    rw [h3, Nat.sub_zero]
    rw [to_subnet_eq (s + 1) s, if_neg (by omega)]
  · decide

/-- Witness for C7 at the concrete single-address range 5..5. -/
theorem subnet_edge_cases_witness :
    (5 : Nat) < 2 ^ 32 ∧ to_subnet 5 5 = [{ base := 5, prefix_bits := 32 }] :=
  ⟨by decide, subnet_edge_cases.1 5 (by decide)⟩
